import Mathlib

/-!
Verification of `realm::util::EncryptedFileMapping`
(`src/Pods/Realm/include/core/realm/util/encrypted_file_mapping.hpp`).

The header declares a page-granular encrypted memory mapping.  The inline
address-translation functions (`get_offset_of_address`,
`get_local_index_of_address`, `contains_page`) and the constant
`c_min_encrypted_file_size` are defined in the header and are embedded here
directly.  The mutating operations (`flush`, `write_barrier`, `read_barrier`,
`mark_pages_for_IV_check`, `reclaim_untouched`, `extend_to`) are only declared
in the header; their behaviour is modelled from the specification.

Machine integers: `size_t` / `uintptr_t` are modelled as `Nat` with explicit
reduction modulo `2 ^ 64` at the points where the C++ computation can wrap.
Fatal assertion failures (`REALM_ASSERT*`) are modelled by returning `none`;
operations declared `noexcept` are modelled as total functions.
-/

namespace Realm

/-- The modulus of 64-bit `size_t` / `uintptr_t` arithmetic. -/
def sizeTMod : Nat := 2 ^ 64

/-- Wrapping (unsigned, 64-bit) subtraction, as performed by C++ `size_t`
subtraction on values below `2 ^ 64`. -/
def size_t_sub (a b : Nat) : Nat := (a + sizeTMod - b) % sizeTMod

/-- Per-page state.  The C++ source represents this as a bitmask
(`Clean = 0`, `Touched = 1`, `UpToDate = 2`, `StaleIV = 4`, `Writable = 8`,
`Dirty = 16`, header lines 122-129); the five independent bits are embedded
as five independent booleans. -/
structure PageState where
  touched : Bool
  upToDate : Bool
  staleIV : Bool
  writable : Bool
  dirty : Bool
  deriving DecidableEq, Repr

/-- The all-clear state (`Clean = 0` in the source bitmask). -/
def PageState.Clean : PageState :=
  { touched := false, upToDate := false, staleIV := false,
    writable := false, dirty := false }

/-- The mapping state.  `m_addr`, `m_page_shift`, `m_first_page`,
`m_page_state` and `m_num_decrypted` are the fields of the C++ class
(header lines 112-130).  `mem` (the decrypted plaintext held for a local
page, `none` when released), `iv` (the IV recorded for the in-memory
plaintext) and `cache` (the shared per-file ciphertext+IV cache, indexed by
global page) model the decrypted buffers and the shared-cache collaborator
that the header only references. -/
structure EncryptedFileMapping where
  m_addr : Nat
  m_page_shift : Nat
  m_first_page : Nat
  m_page_state : List PageState
  m_num_decrypted : Nat
  mem : Nat → Option Nat
  iv : Nat → Nat
  cache : Nat → Option (Nat × Nat)

/-- State of a local page, `Clean` out of bounds. -/
def pageStateAt (m : EncryptedFileMapping) (i : Nat) : PageState :=
  m.m_page_state.getD i PageState.Clean

/-- Header lines 171-175:
`REALM_ASSERT_3(addr, >=, m_addr); return (addr - m_addr) & ((1ULL << m_page_shift) - 1);`.
The failed assertion is modelled as `none`. -/
def get_offset_of_address (m : EncryptedFileMapping) (addr : Nat) : Option Nat :=
  if m.m_addr ≤ addr then
    some ((addr - m.m_addr) &&& ((1 <<< m.m_page_shift) - 1))
  else none

/-- Header lines 177-186: asserts `addr >= m_addr`, computes
`(addr - m_addr + offset) >> m_page_shift` in `uintptr_t` arithmetic, then
asserts the result is below `m_page_state.size()`.  Both failed assertions
are modelled as `none`. -/
def get_local_index_of_address (m : EncryptedFileMapping) (addr offset : Nat) :
    Option Nat :=
  if m.m_addr ≤ addr then
    let local_ndx := ((addr - m.m_addr + offset) % sizeTMod) >>> m.m_page_shift
    if local_ndx < m.m_page_state.length then some local_ndx else none
  else none

/-- Header lines 188-193:
`return page_in_file >= m_first_page && page_in_file - m_first_page < m_page_state.size();`
where the comparison is checked first so that the unsigned subtraction never
wraps; the subtraction itself is embedded as the wrapping `size_t_sub`. -/
def contains_page (m : EncryptedFileMapping) (page_in_file : Nat) : Bool :=
  decide (m.m_first_page ≤ page_in_file) &&
  decide (size_t_sub page_in_file m.m_first_page < m.m_page_state.length)

/-- Header line 233: `constexpr inline size_t c_min_encrypted_file_size = 8192;`. -/
def c_min_encrypted_file_size : Nat := 8192

/-- The external collaborators (cryptor and on-disk image), which the header
only references: `diskIV` is the current on-disk IV of a global page,
`diskPlain` the plaintext obtained by decrypting its on-disk ciphertext, and
`encrypt` maps a plaintext to a ciphertext together with a fresh IV. -/
structure Env where
  diskIV : Nat → Nat
  diskPlain : Nat → Nat
  encrypt : Nat → Nat × Nat

/-- Modelled from the spec: the per-page effect of `flush` (whose body is not
under `src/`) — a `Dirty` page loses `Dirty` and `Writable` and is left
`UpToDate`; any other page is untouched. -/
def flushPageState (ps : PageState) : PageState :=
  if ps.dirty then { ps with dirty := false, writable := false, upToDate := true }
  else ps

/-- Modelled from the spec: `flush` (body not under `src/`) — for every
`Dirty` page, encrypt the current plaintext with a fresh IV, write
ciphertext+IV into the shared per-file cache, clear `Dirty` and `Writable`
and leave `UpToDate` set; other pages are untouched.  Declared `noexcept`
in the header, hence modelled as a total function. -/
def flush (env : Env) (m : EncryptedFileMapping) : EncryptedFileMapping :=
  { m with
    m_page_state := m.m_page_state.map flushPageState,
    cache := fun g =>
      if m.m_first_page ≤ g ∧ g - m.m_first_page < m.m_page_state.length ∧
          (pageStateAt m (g - m.m_first_page)).dirty = true then
        some (env.encrypt ((m.mem (g - m.m_first_page)).getD 0))
      else m.cache g,
    iv := fun i =>
      if i < m.m_page_state.length ∧ (pageStateAt m i).dirty = true then
        (env.encrypt ((m.mem i).getD 0)).2
      else m.iv i }

/-- Modelled from the spec: `mark_pages_for_IV_check` (body not under
`src/`) — set `StaleIV` on every page whose plaintext is currently
`UpToDate`, scheduling an IV re-validation at the next read barrier. -/
def mark_pages_for_IV_check (m : EncryptedFileMapping) : EncryptedFileMapping :=
  { m with
    m_page_state := m.m_page_state.map fun ps =>
      if ps.upToDate then { ps with staleIV := true } else ps }

/-- Step 4 of the read-barrier protocol: when modification was requested,
mark the page `Writable` and `Touched`. -/
def markModify (to_modify : Bool) (ps : PageState) : PageState :=
  if to_modify then { ps with writable := true, touched := true } else ps

/-- Modelled from the spec: step 2 of `read_barrier` (body not under
`src/`) — a `StaleIV` page compares the on-disk IV with the IV recorded for
the in-memory plaintext; a difference clears `UpToDate` (forcing
re-decryption), and `StaleIV` is cleared either way. -/
def stepStaleIV (env : Env) (m : EncryptedFileMapping) (i : Nat) (ps : PageState) :
    PageState :=
  if ps.staleIV then
    if env.diskIV (m.m_first_page + i) = m.iv i then { ps with staleIV := false }
    else { ps with staleIV := false, upToDate := false }
  else ps

/-- Modelled from the spec: the action of `read_barrier` (body not under
`src/`) on one in-range local page — re-validate a `StaleIV` page against
the on-disk IV, then, if the page is not `UpToDate`, decrypt the on-disk
ciphertext into memory (`refresh_page`), record its IV, bump the decryption
counter and set `UpToDate`; finally apply the `to_modify` marking. -/
def read_barrier_page (env : Env) (m : EncryptedFileMapping) (i : Nat)
    (to_modify : Bool) : EncryptedFileMapping :=
  if i < m.m_page_state.length then
    if (stepStaleIV env m i (pageStateAt m i)).upToDate then
      { m with
        m_page_state := m.m_page_state.set i
          (markModify to_modify (stepStaleIV env m i (pageStateAt m i))) }
    else
      { m with
        m_page_state := m.m_page_state.set i
          (markModify to_modify
            { stepStaleIV env m i (pageStateAt m i) with upToDate := true }),
        mem := fun j =>
          if j = i then some (env.diskPlain (m.m_first_page + i)) else m.mem j,
        iv := fun j =>
          if j = i then env.diskIV (m.m_first_page + i) else m.iv j,
        m_num_decrypted := m.m_num_decrypted + 1 }
  else m

/-- Map over a list of page states with access to the local index. -/
def mapWithIndex (f : Nat → PageState → PageState) :
    Nat → List PageState → List PageState
  | _, [] => []
  | k, ps :: rest => f k ps :: mapWithIndex f (k + 1) rest

/-- The local indices of the pages overlapping the byte range
`[addr, addr + size)` of the mapping. -/
def overlappingPages (m : EncryptedFileMapping) (addr size : Nat) : List Nat :=
  if size = 0 then []
  else
    List.range' ((addr - m.m_addr) >>> m.m_page_shift)
      (((addr + size - 1 - m.m_addr) >>> m.m_page_shift) -
        ((addr - m.m_addr) >>> m.m_page_shift) + 1)

/-- Modelled from the spec: `write_barrier` (body not under `src/`) — every
page overlapping the range must be in bounds and have been marked
`Writable` by an earlier `read_barrier(..., to_modify=true)`, otherwise the
call is a programming-error fatal condition (modelled as `none`); each
overlapping page gets `Dirty` set, and nothing is encrypted. -/
def write_barrier (m : EncryptedFileMapping) (addr size : Nat) :
    Option EncryptedFileMapping :=
  if addr < m.m_addr then none
  else if (overlappingPages m addr size).all
      (fun i => decide (i < m.m_page_state.length) && (pageStateAt m i).writable) then
    some { m with
      m_page_state :=
        mapWithIndex
          (fun i ps =>
            if i ∈ overlappingPages m addr size then { ps with dirty := true }
            else ps)
          0 m.m_page_state }
  else none

/-- Modelled from the spec: eligibility for reclamation in
`reclaim_untouched` (body not under `src/`) — a page may be evicted only
when it is `Clean`, or `UpToDate` with neither `Dirty` nor `Writable`, and
it has not been touched since the last reclamation pass. -/
def reclaimEligible (ps : PageState) : Bool :=
  !ps.dirty && !ps.writable && !ps.touched && (ps == PageState.Clean || ps.upToDate)

/-- Modelled from the spec: `reclaim_untouched` (body not under `src/`) —
release the decrypted memory of every eligible page, reset its state to
`Clean`, and add one page's worth of bytes per released page to the
accumulated savings.  The chunk skip-bitmap and the resumable cursor are
pure scan accelerators and are not modelled; the whole table is scanned. -/
def reclaim_untouched (m : EncryptedFileMapping) (accumulated_savings : Nat) :
    EncryptedFileMapping × Nat :=
  ({ m with
      m_page_state := m.m_page_state.map fun ps =>
        if reclaimEligible ps then PageState.Clean else ps,
      mem := fun i =>
        if i < m.m_page_state.length ∧ reclaimEligible (pageStateAt m i) = true then
          none
        else m.mem i },
    accumulated_savings +
      2 ^ m.m_page_shift * (m.m_page_state.filter reclaimEligible).length)

/-- Modelled from the spec: `extend_to` (body not under `src/`) — grow the
page table to cover `new_size` bytes; existing pages keep their state and
the newly added pages start `Clean`.  The underlying memory allocation is
an external responsibility and is not modelled. -/
def extend_to (m : EncryptedFileMapping) (offset new_size : Nat) :
    EncryptedFileMapping :=
  let num_pages := (new_size + 2 ^ m.m_page_shift - 1) >>> m.m_page_shift
  { m with
    m_page_state :=
      m.m_page_state ++
        List.replicate (num_pages - m.m_page_state.length) PageState.Clean }

/-- A concrete mapping used to instantiate theorems with hypotheses:
base address 4096, page size `2 ^ 12`, first global page 3, two pages. -/
def exm : EncryptedFileMapping :=
  { m_addr := 4096, m_page_shift := 12, m_first_page := 3,
    m_page_state := [PageState.Clean, PageState.Clean],
    m_num_decrypted := 0,
    mem := fun _ => none, iv := fun _ => 0, cache := fun _ => none }

/-- A concrete three-page mapping with page 1 mid-write
(`UpToDate | Writable | Dirty`) and page 2 open for writing but unmodified
(`UpToDate | Writable`), used to instantiate the barrier theorems. -/
def exw : EncryptedFileMapping :=
  { m_addr := 0, m_page_shift := 12, m_first_page := 0,
    m_page_state :=
      [PageState.Clean,
       { touched := true, upToDate := true, staleIV := false,
         writable := true, dirty := true },
       { touched := true, upToDate := true, staleIV := false,
         writable := true, dirty := false }],
    m_num_decrypted := 2,
    mem := fun _ => some 7, iv := fun _ => 1, cache := fun _ => none }

/-- A concrete environment: on-disk IVs all 2, decrypted on-disk plaintext 9,
encryption appends 100 and issues fresh IV 5. -/
def exEnv : Env :=
  { diskIV := fun _ => 2, diskPlain := fun _ => 9,
    encrypt := fun p => (p + 100, 5) }

theorem sizeTMod_eq : sizeTMod = 18446744073709551616 := by
  norm_num [sizeTMod]

theorem getD_map_of_fix (f : PageState → PageState)
    (hf : f PageState.Clean = PageState.Clean) (l : List PageState) (i : Nat) :
    (l.map f).getD i PageState.Clean = f (l.getD i PageState.Clean) := by
  rw [List.getD_eq_getElem?_getD, List.getD_eq_getElem?_getD, List.getElem?_map]
  cases l[i]? with
  | none => simpa using hf.symm
  | some ps => rfl

theorem getD_set_self (l : List PageState) (i : Nat) (x : PageState)
    (h : i < l.length) : (l.set i x).getD i PageState.Clean = x := by
  simp [List.getD_eq_getElem?_getD, List.getElem?_set, h]

theorem pageStateAt_oob (m : EncryptedFileMapping) (i : Nat)
    (hi : m.m_page_state.length ≤ i) : pageStateAt m i = PageState.Clean := by
  unfold pageStateAt
  rw [List.getD_eq_getElem?_getD, List.getElem?_eq_none hi]
  rfl

theorem mapWithIndex_length (f : Nat → PageState → PageState) (k : Nat)
    (l : List PageState) : (mapWithIndex f k l).length = l.length := by
  induction l generalizing k with
  | nil => rfl
  | cons ps rest ih => simp [mapWithIndex, ih]

theorem getD_mapWithIndex (f : Nat → PageState → PageState) (k i : Nat)
    (l : List PageState) (hi : i < l.length) :
    (mapWithIndex f k l).getD i PageState.Clean =
      f (k + i) (l.getD i PageState.Clean) := by
  induction l generalizing k i with
  | nil => simp at hi
  | cons ps rest ih =>
    cases i with
    | zero => rfl
    | succ n =>
      have hn : n < rest.length := by simpa using hi
      show (mapWithIndex f (k + 1) rest).getD n PageState.Clean = _
      rw [ih (k + 1) n hn]
      congr 1
      omega

theorem getD_mapWithIndex_oob (f : Nat → PageState → PageState) (k : Nat)
    (l : List PageState) (i : Nat) (hi : l.length ≤ i) :
    (mapWithIndex f k l).getD i PageState.Clean = PageState.Clean := by
  rw [List.getD_eq_getElem?_getD,
    List.getElem?_eq_none (by rw [mapWithIndex_length]; exact hi)]
  rfl

/-- C1: `contains_page p` is true iff `p` lies in
`[m_first_page, m_first_page + table length)`, and under the guard
`m_first_page ≤ p` the unsigned subtraction it performs does not wrap. -/
theorem contains_page_iff_in_window (m : EncryptedFileMapping) (p : Nat)
    (hp : p < sizeTMod) (hf : m.m_first_page < sizeTMod) :
    (contains_page m p = true ↔
      m.m_first_page ≤ p ∧ p < m.m_first_page + m.m_page_state.length) ∧
    (m.m_first_page ≤ p → size_t_sub p m.m_first_page = p - m.m_first_page) := by
  rw [sizeTMod_eq] at hp hf
  unfold contains_page size_t_sub
  rw [sizeTMod_eq]
  constructor
  · rw [Bool.and_eq_true, decide_eq_true_eq, decide_eq_true_eq]
    omega
  · intro h
    omega

theorem contains_page_iff_in_window_witness :
    ((contains_page exm 4 = true ↔
      exm.m_first_page ≤ 4 ∧ 4 < exm.m_first_page + exm.m_page_state.length) ∧
    (exm.m_first_page ≤ 4 → size_t_sub 4 exm.m_first_page = 4 - exm.m_first_page)) :=
  contains_page_iff_in_window exm 4 (by decide) (by decide)

/-- C2: when `get_local_index_of_address` returns an index, it equals
`(addr - base + offset) >> page_shift` (in `size_t` arithmetic) and lies
inside `[0, table length)`; when `addr` precedes the base or the computed
index is out of range of the page table, the call fails (fatally) instead
of returning. -/
theorem get_local_index_of_address_spec (m : EncryptedFileMapping)
    (addr offset : Nat) :
    (∀ i, get_local_index_of_address m addr offset = some i →
        i = ((addr - m.m_addr + offset) % sizeTMod) >>> m.m_page_shift ∧
        i < m.m_page_state.length) ∧
    (addr < m.m_addr → get_local_index_of_address m addr offset = none) ∧
    (m.m_addr ≤ addr →
      m.m_page_state.length ≤
        ((addr - m.m_addr + offset) % sizeTMod) >>> m.m_page_shift →
      get_local_index_of_address m addr offset = none) := by
  unfold get_local_index_of_address
  refine ⟨?_, ?_, ?_⟩
  · intro i hi
    by_cases hge : m.m_addr ≤ addr
    · simp only [if_pos hge] at hi
      by_cases hlt :
          ((addr - m.m_addr + offset) % sizeTMod) >>> m.m_page_shift <
            m.m_page_state.length
      · simp only [if_pos hlt, Option.some.injEq] at hi
        exact ⟨hi.symm, hi ▸ hlt⟩
      · simp [if_neg hlt] at hi
    · simp [if_neg hge] at hi
  · intro hlt
    rw [if_neg (by omega)]
  · intro hge hle
    rw [if_pos hge, if_neg (by omega)]

theorem get_local_index_of_address_spec_witness :
    (0 : Nat) = ((4101 - exm.m_addr + 0) % sizeTMod) >>> exm.m_page_shift ∧
    (0 : Nat) < exm.m_page_state.length :=
  (get_local_index_of_address_spec exm 4101 0).1 0 (by decide)

/-- C3: `flush` clears `Dirty` and `Writable` on every page that was
`Dirty` and leaves it `UpToDate`; every page that was not `Dirty` is left
entirely unchanged (a page that is `Writable` but not `Dirty` stays
`Writable`).  `flush` is a total function, modelling its `noexcept`
declaration (header line 49). -/
theorem flush_spec (env : Env) (m : EncryptedFileMapping) (i : Nat) :
    ((pageStateAt m i).dirty = true →
      pageStateAt (flush env m) i =
        { pageStateAt m i with
            dirty := false, writable := false, upToDate := true }) ∧
    ((pageStateAt m i).dirty = false →
      pageStateAt (flush env m) i = pageStateAt m i) := by
  have hstep : pageStateAt (flush env m) i = flushPageState (pageStateAt m i) := by
    unfold flush pageStateAt
    exact getD_map_of_fix _ rfl _ _
  constructor
  · intro hd
    rw [hstep]
    unfold flushPageState
    rw [if_pos hd]
  · intro hd
    rw [hstep]
    unfold flushPageState
    rw [if_neg (by simp [hd])]

theorem flush_spec_witness :
    pageStateAt (flush exEnv exw) 1 =
      { pageStateAt exw 1 with
          dirty := false, writable := false, upToDate := true } :=
  (flush_spec exEnv exw 1).1 (by decide)

/-- C4: under the precondition that every page overlapping
`[addr, addr + size)` is in bounds and was previously marked `Writable`,
`write_barrier` succeeds, sets `Dirty` on exactly the overlapping pages,
leaves all other pages unchanged, and performs no encryption (plaintext,
recorded IVs and the shared cache are untouched); if some overlapping page
is not `Writable`, the call is a fatal programming error (`none`). -/
theorem write_barrier_spec (m : EncryptedFileMapping) (addr size : Nat)
    (hge : m.m_addr ≤ addr) :
    ((∀ i ∈ overlappingPages m addr size,
        i < m.m_page_state.length ∧ (pageStateAt m i).writable = true) →
      ∃ m2, write_barrier m addr size = some m2 ∧
        (∀ i ∈ overlappingPages m addr size,
          pageStateAt m2 i = { pageStateAt m i with dirty := true }) ∧
        (∀ i, i ∉ overlappingPages m addr size →
          pageStateAt m2 i = pageStateAt m i) ∧
        m2.mem = m.mem ∧ m2.iv = m.iv ∧ m2.cache = m.cache) ∧
    ((∃ i ∈ overlappingPages m addr size, (pageStateAt m i).writable = false) →
      write_barrier m addr size = none) := by
  constructor
  · intro hpre
    have hall : (overlappingPages m addr size).all
        (fun i => decide (i < m.m_page_state.length) && (pageStateAt m i).writable) =
          true := by
      rw [List.all_eq_true]
      intro i hm
      obtain ⟨h1, h2⟩ := hpre i hm
      simp [h1, h2]
    unfold write_barrier
    rw [if_neg (by omega), if_pos hall]
    refine ⟨_, rfl, ?_, ?_, rfl, rfl, rfl⟩
    · intro i hm
      obtain ⟨h1, _⟩ := hpre i hm
      unfold pageStateAt
      show (mapWithIndex _ 0 m.m_page_state).getD i PageState.Clean = _
      rw [getD_mapWithIndex _ 0 i _ h1, Nat.zero_add, if_pos hm]
    · intro i hm
      by_cases h1 : i < m.m_page_state.length
      · unfold pageStateAt
        show (mapWithIndex _ 0 m.m_page_state).getD i PageState.Clean = _
        rw [getD_mapWithIndex _ 0 i _ h1, Nat.zero_add, if_neg hm]
      · have h2 : m.m_page_state.length ≤ i := by omega
        rw [pageStateAt_oob _ _ h2]
        unfold pageStateAt
        show (mapWithIndex _ 0 m.m_page_state).getD i PageState.Clean = _
        rw [getD_mapWithIndex_oob _ 0 _ i h2]
  · intro hbad
    obtain ⟨i, hm, hw⟩ := hbad
    have hnall : ¬ ((overlappingPages m addr size).all
        (fun i => decide (i < m.m_page_state.length) && (pageStateAt m i).writable) =
          true) := by
      intro hall
      rw [List.all_eq_true] at hall
      have := hall i hm
      rw [hw] at this
      simp at this
    unfold write_barrier
    rw [if_neg (by omega), if_neg hnall]

theorem write_barrier_spec_witness :
    ∃ m2, write_barrier exw 4096 100 = some m2 ∧
      (∀ i ∈ overlappingPages exw 4096 100,
        pageStateAt m2 i = { pageStateAt exw i with dirty := true }) ∧
      (∀ i, i ∉ overlappingPages exw 4096 100 →
        pageStateAt m2 i = pageStateAt exw i) ∧
      m2.mem = exw.mem ∧ m2.iv = exw.iv ∧ m2.cache = exw.cache :=
  (write_barrier_spec exw 4096 100 (by decide)).1 (by decide)

/-- C5: `reclaim_untouched` never evicts a `Dirty` or `Writable` page —
such a page keeps its decrypted memory and its entire state; the savings
grow by exactly one page size per reclaimed page, and a page can only be
reclaimed when it is neither `Dirty` nor `Writable` and is `Clean` or
fully committed `UpToDate`. -/
theorem reclaim_untouched_spec (m : EncryptedFileMapping) (s : Nat) :
    (∀ i, (pageStateAt m i).dirty = true ∨ (pageStateAt m i).writable = true →
      (reclaim_untouched m s).1.mem i = m.mem i ∧
      pageStateAt (reclaim_untouched m s).1 i = pageStateAt m i) ∧
    (reclaim_untouched m s).2 =
      s + 2 ^ m.m_page_shift * (m.m_page_state.filter reclaimEligible).length ∧
    (∀ ps, reclaimEligible ps = true →
      ps.dirty = false ∧ ps.writable = false ∧
      (ps = PageState.Clean ∨ ps.upToDate = true)) := by
  refine ⟨?_, rfl, ?_⟩
  · intro i hd
    have hne : reclaimEligible (pageStateAt m i) = false := by
      unfold reclaimEligible
      rcases hd with h | h <;> simp [h]
    constructor
    · show (if i < m.m_page_state.length ∧
          reclaimEligible (pageStateAt m i) = true then none else m.mem i) =
        m.mem i
      rw [hne]
      simp
    · show (m.m_page_state.map fun ps =>
          if reclaimEligible ps then PageState.Clean else ps).getD i
            PageState.Clean = pageStateAt m i
      rw [getD_map_of_fix _ rfl _ _]
      show (if reclaimEligible (pageStateAt m i) = true then PageState.Clean
        else pageStateAt m i) = pageStateAt m i
      rw [hne]
      simp
  · intro ps h
    unfold reclaimEligible at h
    simp only [Bool.and_eq_true, Bool.or_eq_true, Bool.not_eq_true',
      beq_iff_eq] at h
    exact ⟨h.1.1.1, h.1.1.2, h.2⟩

theorem reclaim_untouched_spec_witness :
    (reclaim_untouched exw 0).1.mem 1 = exw.mem 1 ∧
    pageStateAt (reclaim_untouched exw 0).1 1 = pageStateAt exw 1 :=
  (reclaim_untouched_spec exw 0).1 1 (by decide)

theorem read_barrier_page_stale (env : Env) (m : EncryptedFileMapping)
    (i : Nat) (t : Bool) (hi : i < m.m_page_state.length)
    (hs : (pageStateAt m i).staleIV = true)
    (hu : (pageStateAt m i).upToDate = true) :
    (pageStateAt (read_barrier_page env m i t) i).staleIV = false ∧
    (pageStateAt (read_barrier_page env m i t) i).upToDate = true ∧
    (env.diskIV (m.m_first_page + i) = m.iv i →
      (read_barrier_page env m i t).mem i = m.mem i) ∧
    (env.diskIV (m.m_first_page + i) ≠ m.iv i →
      (read_barrier_page env m i t).mem i =
        some (env.diskPlain (m.m_first_page + i))) := by
  by_cases hiv : env.diskIV (m.m_first_page + i) = m.iv i
  · have hstep : stepStaleIV env m i (pageStateAt m i) =
        { pageStateAt m i with staleIV := false } := by
      unfold stepStaleIV
      rw [if_pos hs, if_pos hiv]
    have hup : (stepStaleIV env m i (pageStateAt m i)).upToDate = true := by
      rw [hstep]
      exact hu
    have hres : read_barrier_page env m i t =
        { m with
          m_page_state := m.m_page_state.set i
            (markModify t (stepStaleIV env m i (pageStateAt m i))) } := by
      unfold read_barrier_page
      rw [if_pos hi, if_pos hup]
    have hat : pageStateAt (read_barrier_page env m i t) i =
        markModify t { pageStateAt m i with staleIV := false } := by
      rw [hres, hstep]
      exact getD_set_self _ _ _ hi
    refine ⟨?_, ?_, fun _ => ?_, fun h => absurd hiv h⟩
    · rw [hat]
      cases t <;> rfl
    · rw [hat]
      cases t <;> exact hu
    · rw [hres]
  · have hstep : stepStaleIV env m i (pageStateAt m i) =
        { pageStateAt m i with staleIV := false, upToDate := false } := by
      unfold stepStaleIV
      rw [if_pos hs, if_neg hiv]
    have hup : ¬ ((stepStaleIV env m i (pageStateAt m i)).upToDate = true) := by
      rw [hstep]
      simp
    have hres : read_barrier_page env m i t =
        { m with
          m_page_state := m.m_page_state.set i
            (markModify t
              { stepStaleIV env m i (pageStateAt m i) with upToDate := true }),
          mem := fun j =>
            if j = i then some (env.diskPlain (m.m_first_page + i)) else m.mem j,
          iv := fun j =>
            if j = i then env.diskIV (m.m_first_page + i) else m.iv j,
          m_num_decrypted := m.m_num_decrypted + 1 } := by
      unfold read_barrier_page
      rw [if_pos hi, if_neg hup]
    have hat : pageStateAt (read_barrier_page env m i t) i =
        markModify t { pageStateAt m i with staleIV := false, upToDate := true } := by
      rw [hres, hstep]
      exact getD_set_self _ _ _ hi
    refine ⟨?_, ?_, fun h => absurd h hiv, fun _ => ?_⟩
    · rw [hat]
      cases t <;> rfl
    · rw [hat]
      cases t <;> rfl
    · rw [hres]
      simp

/-- C6: a page marked by `mark_pages_for_IV_check` (which requires it to be
`UpToDate`), once covered by the next `read_barrier`, ends with `StaleIV`
cleared and `UpToDate` set; its plaintext is unchanged when the on-disk IV
equals the recorded in-memory IV, and is re-decrypted from disk when the
IVs differ. -/
theorem staleness_convergence (env : Env) (m : EncryptedFileMapping)
    (i : Nat) (t : Bool) (hi : i < m.m_page_state.length)
    (hu : (pageStateAt m i).upToDate = true) :
    (pageStateAt (read_barrier_page env (mark_pages_for_IV_check m) i t) i).staleIV
        = false ∧
    (pageStateAt (read_barrier_page env (mark_pages_for_IV_check m) i t) i).upToDate
        = true ∧
    (env.diskIV (m.m_first_page + i) = m.iv i →
      (read_barrier_page env (mark_pages_for_IV_check m) i t).mem i = m.mem i) ∧
    (env.diskIV (m.m_first_page + i) ≠ m.iv i →
      (read_barrier_page env (mark_pages_for_IV_check m) i t).mem i =
        some (env.diskPlain (m.m_first_page + i))) := by
  have hmark : pageStateAt (mark_pages_for_IV_check m) i =
      { pageStateAt m i with staleIV := true } := by
    unfold mark_pages_for_IV_check pageStateAt
    show (m.m_page_state.map _).getD i PageState.Clean = _
    rw [getD_map_of_fix _ rfl _ _]
    exact if_pos hu
  have hlen : (mark_pages_for_IV_check m).m_page_state.length =
      m.m_page_state.length := by
    unfold mark_pages_for_IV_check
    exact List.length_map _ _
  have h := read_barrier_page_stale env (mark_pages_for_IV_check m) i t
    (by rw [hlen]; exact hi)
    (by rw [hmark])
    (by rw [hmark]; exact hu)
  exact h

theorem staleness_convergence_witness :
    (pageStateAt (read_barrier_page exEnv (mark_pages_for_IV_check exw) 2 false) 2).staleIV
        = false ∧
    (pageStateAt (read_barrier_page exEnv (mark_pages_for_IV_check exw) 2 false) 2).upToDate
        = true ∧
    (exEnv.diskIV (exw.m_first_page + 2) = exw.iv 2 →
      (read_barrier_page exEnv (mark_pages_for_IV_check exw) 2 false).mem 2 =
        exw.mem 2) ∧
    (exEnv.diskIV (exw.m_first_page + 2) ≠ exw.iv 2 →
      (read_barrier_page exEnv (mark_pages_for_IV_check exw) 2 false).mem 2 =
        some (exEnv.diskPlain (exw.m_first_page + 2))) :=
  staleness_convergence exEnv exw 2 false (by decide) (by decide)

/-- C8: `extend_to` preserves the state of every page already in the table
and every newly added page starts `Clean`; the table never shrinks. -/
theorem extend_to_spec (m : EncryptedFileMapping) (offset new_size : Nat) :
    (∀ i, i < m.m_page_state.length →
      pageStateAt (extend_to m offset new_size) i = pageStateAt m i) ∧
    (∀ i, m.m_page_state.length ≤ i →
      i < (extend_to m offset new_size).m_page_state.length →
      pageStateAt (extend_to m offset new_size) i = PageState.Clean) ∧
    m.m_page_state.length ≤ (extend_to m offset new_size).m_page_state.length := by
  unfold extend_to pageStateAt
  refine ⟨?_, ?_, ?_⟩
  · intro i hi
    show (m.m_page_state ++ _).getD i PageState.Clean = _
    simp [List.getD_eq_getElem?_getD, List.getElem?_append, hi]
  · intro i hge hlt
    simp only [List.length_append, List.length_replicate] at hlt
    show (m.m_page_state ++ _).getD i PageState.Clean = _
    rw [List.getD_eq_getElem?_getD, List.getElem?_append, if_neg (by omega)]
    rw [List.getElem?_replicate, if_pos (by omega)]
    rfl
  · simp

theorem extend_to_spec_witness :
    pageStateAt (extend_to exw 0 20480) 0 = pageStateAt exw 0 ∧
    pageStateAt (extend_to exw 0 20480) 4 = PageState.Clean :=
  ⟨(extend_to_spec exw 0 20480).1 0 (by decide),
   (extend_to_spec exw 0 20480).2.1 4 (by decide) (by decide)⟩

/-- C7: for `addr ≥ base`, `get_offset_of_address` returns the intra-page
offset `(addr - base) mod 2 ^ page_shift` (the source computes it by masking
with `page_size - 1`); for `addr < base` it fails (fatally). -/
theorem get_offset_of_address_spec (m : EncryptedFileMapping) (addr : Nat) :
    (m.m_addr ≤ addr →
      get_offset_of_address m addr =
        some ((addr - m.m_addr) % 2 ^ m.m_page_shift)) ∧
    (addr < m.m_addr → get_offset_of_address m addr = none) := by
  unfold get_offset_of_address
  constructor
  · intro hge
    rw [if_pos hge]
    congr 1
    rw [Nat.shiftLeft_eq, one_mul, Nat.and_pow_two_sub_one_eq_mod]
  · intro hlt
    rw [if_neg (by omega)]

theorem get_offset_of_address_spec_witness :
    get_offset_of_address exm 4101 =
      some ((4101 - exm.m_addr) % 2 ^ exm.m_page_shift) :=
  (get_offset_of_address_spec exm 4101).1 (by decide)

/-- C9: the minimum encrypted file size is exactly 8192 bytes. -/
theorem c_min_encrypted_file_size_eq : c_min_encrypted_file_size = 8192 := rfl

/-- C10: address translation decomposes an in-range address exactly:
`(local index << page_shift) + intra-page offset = addr - base`, and the
intra-page offset is strictly below the page size `2 ^ page_shift`. -/
theorem address_decomposition (m : EncryptedFileMapping) (addr i o : Nat)
    (haddr : addr < sizeTMod)
    (hi : get_local_index_of_address m addr 0 = some i)
    (ho : get_offset_of_address m addr = some o) :
    (i <<< m.m_page_shift) + o = addr - m.m_addr ∧ o < 2 ^ m.m_page_shift := by
  have hge : m.m_addr ≤ addr := by
    by_contra hlt
    rw [((get_local_index_of_address_spec m addr 0).2.1 (by omega))] at hi
    exact Option.noConfusion hi
  have hival := (get_local_index_of_address_spec m addr 0).1 i hi
  have hoval := (get_offset_of_address_spec m addr).1 hge
  rw [ho] at hoval
  have hmod : (addr - m.m_addr + 0) % sizeTMod = addr - m.m_addr := by
    rw [Nat.add_zero]
    exact Nat.mod_eq_of_lt (by omega)
  have hieq : i = (addr - m.m_addr) / 2 ^ m.m_page_shift := by
    rw [hival.1, hmod, Nat.shiftRight_eq_div_pow]
  have hoeq : o = (addr - m.m_addr) % 2 ^ m.m_page_shift :=
    Option.some.injEq _ _ ▸ hoval
  constructor
  · rw [Nat.shiftLeft_eq, hieq, hoeq]
    exact Nat.div_add_mod' _ _
  · rw [hoeq]
    exact Nat.mod_lt _ (Nat.pos_pow_of_pos _ (by omega))

theorem address_decomposition_witness :
    ((0 : Nat) <<< exm.m_page_shift) + 5 = 4101 - exm.m_addr ∧
    (5 : Nat) < 2 ^ exm.m_page_shift :=
  address_decomposition exm 4101 0 5 (by decide) (by decide) (by decide)

end Realm
